import Mathlib

/-!
Verification of the moment-accumulator engine of `cmomy`
(`src/cmomy/abstract_central.py`, `src/cmomy/utils.py`).

Arrays are modelled as a shape together with a total index function into ℚ
(`ND`); an accumulator buffer is a function from a value index (a list of
coordinates) and a moment slot to ℚ.  Machine floating point is modelled by
exact rationals; in Lean division by zero yields 0, so the "no division by
zero" statements are phrased as nonvanishing of the actual divisors.

Definitions carrying a doc comment starting with `Modelled from the spec:`
embed parts of the engine (the pusher kernels, the concrete `_verify_value`
and `from_datas` of the array subclass) whose code is not part of the
abstract base class or the utils module; they follow the specification text.
-/

namespace Cmomy

/-- An n-dimensional numeric array: a shape and a total index function.
Only indices componentwise below the shape are meaningful; the function is
total for convenience of the shallow embedding. -/
structure ND where
  shape : List Nat
  get : List Nat → ℚ

/-- Number of dimensions (`x.ndim`). -/
def ND.ndim (x : ND) : Nat := x.shape.length

/-- Length of a 1-dimensional array (`len(x)`). -/
def ND.size1 (x : ND) : Nat := x.shape.headD 0

/-- Embedding of `_shape_insert_axis` (src/cmomy/utils.py):
`shape[:axis] + (new_size,) + shape[axis:]`. -/
def shape_insert_axis (shape : List Nat) (axis : Nat) (newSize : Nat) : List Nat :=
  List.insertIdx axis newSize shape

/-- Embedding of `_shape_reduce` (src/cmomy/utils.py): drop position `axis`. -/
def shape_reduce (shape : List Nat) (axis : Nat) : List Nat :=
  shape.eraseIdx axis

/-- Embedding of `_binom` (src/cmomy/utils.py): factorial quotient for
`n > k`, 1 for `n = k`, 0 for `n < k`. -/
def binom (n k : Nat) : ℚ :=
  if n > k then (Nat.factorial n : ℚ) / ((Nat.factorial k : ℚ) * (Nat.factorial (n - k) : ℚ))
  else if n = k then 1 else 0

theorem binom_eq_choose (n k : Nat) : binom n k = (Nat.choose n k : ℚ) := by
  unfold binom
  rcases lt_trichotomy k n with h | h | h
  · rw [if_pos h]
    have hk : k ≤ n := le_of_lt h
    have hfac : ((Nat.choose n k : ℚ)) * (Nat.factorial k : ℚ) * (Nat.factorial (n - k) : ℚ)
        = (Nat.factorial n : ℚ) := by
      have := congrArg (fun t : Nat => (t : ℚ)) (Nat.choose_mul_factorial_mul_factorial hk)
      push_cast at this
      linarith [this]
    have hk0 : (Nat.factorial k : ℚ) ≠ 0 := by
      exact_mod_cast Nat.factorial_ne_zero k
    have hnk0 : (Nat.factorial (n - k) : ℚ) ≠ 0 := by
      exact_mod_cast Nat.factorial_ne_zero (n - k)
    field_simp
    linarith [hfac]
  · rw [if_neg (by omega), if_pos h.symm, h, Nat.choose_self]
    norm_num
  · rw [if_neg (by omega), if_neg (by omega), Nat.choose_eq_zero_of_lt h]
    norm_num

/-- `np.moveaxis(x, a, 0)`: axis `a` becomes the leading axis. -/
def ND.moveaxisToFront (x : ND) (a : Nat) : ND :=
  ⟨x.shape.getD a 0 :: x.shape.eraseIdx a,
   fun idx => x.get (List.insertIdx a (idx.headD 0) idx.tail)⟩

/-- Right-aligned shape compatibility for `np.broadcast_to`. -/
def broadcastCompat (src tgt : List Nat) : Bool :=
  src.length ≤ tgt.length &&
    (src.zip (tgt.drop (tgt.length - src.length))).all (fun p => p.1 == 1 || p.1 == p.2)

/-- `np.broadcast_to(x, shape)`: left-pad the shape with singleton axes,
repeat along axes of size one; raises on incompatible shapes. -/
def ND.broadcastTo (x : ND) (shape : List Nat) : Except String ND :=
  if broadcastCompat x.shape shape then
    .ok ⟨shape, fun idx =>
      x.get ((((idx.drop (shape.length - x.shape.length)).zip x.shape).map
        (fun p => if p.2 = 1 then 0 else p.1)))⟩
  else .error "operands could not be broadcast together"

/-- The reshape in the expand branch of `_axis_expand_broadcast`:
a 1-D array reshaped to all-singleton dimensions with its length in
position `axis` (C-order reshape, so the entry at `idx` is `x[idx[axis]]`). -/
def ND.reshapeExpand (x : ND) (shape : List Nat) (axis : Nat) : ND :=
  ⟨List.insertIdx axis x.size1 (List.replicate (shape.length - 1) 1),
   fun idx => x.get [idx.getD axis 0]⟩

/-- Embedding of `_axis_expand_broadcast` (src/cmomy/utils.py).  The dtype
coercion of the `verify` branch is the identity in this rational model.
Steps: expand a rank-1 array whose length matches `shape[axis]` by singleton
insertion, broadcast to the target shape if it differs, then roll `axis` to
the leading position. -/
def axis_expand_broadcast (x : ND) (shape : List Nat) (axis : Option Nat)
    (expand : Bool) (broadcast : Bool) (roll : Bool) : Except String ND := do
  let x1 ←
    if expand && x.ndim == 1 && x.ndim != shape.length then
      match axis with
      | none => Except.error "trying to expand an exis with axis==None"
      | some a =>
          if x.size1 == shape.getD a 0 then pure (x.reshapeExpand shape a)
          else pure x
    else pure x
  let x2 ←
    if broadcast && x1.shape ≠ shape then x1.broadcastTo shape else pure x1
  pure (match axis with
        | some a => if roll && a != 0 then x2.moveaxisToFront a else x2
        | none => x2)

/-- Modelled from the spec: the single-sample Welford update `push_val` of
PusherKernels (§4.2); the pusher module itself is not under `src/`.  The
buffer slots hold the weight, the mean and the central-moment weighted
averages (§3), so the spec recurrence is applied to the weight-scaled sums
`S_k = W·C_k` (with `S_0 = W`, `S_1 = 0`) and the updated slot renormalized
by the new total weight `W' = W + w`; the re-centering sum and the
new-sample contribution are the spec's terms verbatim. -/
def push_val_kernel (acc : Nat → ℚ) (w x : ℚ) : Nat → ℚ :=
  fun k =>
    let W := acc 0
    let W' := W + w
    let M := acc 1
    let d := x - M
    if k = 0 then W'
    else if k = 1 then M + d * w / W'
    else
      (W * acc k
        + ∑ j ∈ Finset.Icc 1 (k - 2),
            binom k j * (W * acc (k - j)) * (-(w / W'))^j * d^j
        + W * (d^k * (w / W') * ((W / W')^(k-1) - (-(w / W'))^(k-1)))) / W'

/-- Modelled from the spec: the accumulator-merge kernel behind `push_data`
(§4.2, generalized Pébay parallel-update formula); the pusher module is not
under `src/`.  Zero-weight operands short-circuit as §4.2 requires (the
incoming operand first, matching the sequential-merge use).  As in
`push_val_kernel` the formula is the spec's recurrence over the
weight-scaled sums `S_k = W·C_k`, renormalized by `W = W_A + W_B`. -/
def push_data_kernel (a b : Nat → ℚ) : Nat → ℚ :=
  if b 0 = 0 then a
  else if a 0 = 0 then b
  else
    fun k =>
      let wa := a 0
      let wb := b 0
      let W := wa + wb
      let d := b 1 - a 1
      if k = 0 then W
      else if k = 1 then a 1 + d * wb / W
      else
        (wa * a k + wb * b k
          + ∑ j ∈ Finset.Icc 1 (k - 2),
              binom k j * (wa * a (k - j) * (-(wb / W))^j
                + wb * b (k - j) * (wa / W)^j) * d^j
          + d^k * (wa * (-(wb / W))^k + wb * (wa / W)^k)) / W

/-- Weight-scaled central sums of a bivariate buffer: `S_{0,0} = W`,
`S_{1,0} = S_{0,1} = 0`, otherwise `W·C_{i,j}`. -/
def csum2 (f : Nat × Nat → ℚ) (ij : Nat × Nat) : ℚ :=
  if ij = (0, 0) then f (0, 0)
  else if ij = (1, 0) ∨ ij = (0, 1) then 0
  else f (0, 0) * f ij

/-- Modelled from the spec: the bivariate (co-moment) analogue of the merge
kernel (§4.2: "the bivariate analogue of the same recurrence", cross terms
via the double binomial expansion, each variable's own mean and δ tracked
independently); the pusher module is not under `src/`. -/
def push_data_kernel2 (a b : Nat × Nat → ℚ) : Nat × Nat → ℚ :=
  if b (0, 0) = 0 then a
  else if a (0, 0) = 0 then b
  else
    fun ij =>
      let wa := a (0, 0)
      let wb := b (0, 0)
      let W := wa + wb
      let d0 := b (1, 0) - a (1, 0)
      let d1 := b (0, 1) - a (0, 1)
      if ij = (0, 0) then W
      else if ij = (1, 0) then a (1, 0) + d0 * wb / W
      else if ij = (0, 1) then a (0, 1) + d1 * wb / W
      else
        (∑ t ∈ Finset.range (ij.1 + 1) ×ˢ Finset.range (ij.2 + 1),
            binom ij.1 t.1 * binom ij.2 t.2 * d0^t.1 * d1^t.2 *
              (csum2 a (ij.1 - t.1, ij.2 - t.2) * (-(wb / W))^(t.1 + t.2)
                + csum2 b (ij.1 - t.1, ij.2 - t.2) * (wa / W)^(t.1 + t.2))) / W

/-- A single-variable (`mom_ndim = 1`) accumulator: value shape, moment
order `mom` (`mom_shape = [mom+1]`), and the buffer, indexed by a value
index and a moment slot (`data[v ++ [k]]`).  Slot 0 is the weight, slot 1
the mean, slots `k ≥ 2` the central-moment averages. -/
structure Acc where
  val_shape : List Nat
  mom : Nat
  buf : List Nat → Nat → ℚ

/-- The underlying data array (`self.data`), shape `val_shape + mom_shape`. -/
def Acc.data (a : Acc) : ND :=
  ⟨a.val_shape ++ [a.mom + 1], fun idx => a.buf idx.dropLast (idx.getLastD 0)⟩

/-- A co-moment (`mom_ndim = 2`) accumulator; the two moment slots are a
pair index, slot `(0,0)` the weight, `(1,0)`/`(0,1)` the two means. -/
structure Acc2 where
  val_shape : List Nat
  mom0 : Nat
  mom1 : Nat
  buf : List Nat → Nat × Nat → ℚ

/-- Modelled from the spec: the concrete `_verify_value` of the array
subclass is not under `src/` (only the abstract declaration is).  Per §4.1
it (a) coerces the dtype (identity here), (b)/(c) expands and broadcasts via
`_axis_expand_broadcast` (src/cmomy/utils.py) with rolling deferred, checks
the result against the target shape (ShapeMismatch, §7), then (d) rotates
`axis` to the leading position.  Verification is pure. -/
def verify_value (x : ND) (targetShape : List Nat) (axis : Option Nat)
    (broadcast expand : Bool) : Except String ND := do
  let y ← axis_expand_broadcast x targetShape axis expand broadcast false
  if y.shape = targetShape then
    pure (match axis with
          | some a => if a != 0 then y.moveaxisToFront a else y
          | none => y)
  else Except.error "ShapeMismatch"

/-- Modelled from the spec: the batch kernel behind `push_vals` "applies
`push_val` sequentially, one record at a time, accumulating into the same
target buffer" (§4.2); records are leading-axis slices of the verified
arrays. -/
def vals_kernel (buf : List Nat → Nat → ℚ) (wr xr : ND) : List Nat → Nat → ℚ :=
  (List.range (xr.shape.headD 0)).foldl
    (fun b r => fun v => push_val_kernel (b v) (wr.get (r :: v)) (xr.get (r :: v))) buf

/-- Modelled from the spec: the batch-merge kernel behind `push_datas`
"merges a batch of `B`s sequentially in the order given" (§4.2). -/
def datas_kernel (buf : List Nat → Nat → ℚ) (datas : ND) : List Nat → Nat → ℚ :=
  (List.range (datas.shape.headD 0)).foldl
    (fun b r => fun v => push_data_kernel (b v) (fun k => datas.get (r :: (v ++ [k])))) buf

/-- `push_val` (src/cmomy/abstract_central.py L506-538) for `mom_ndim = 1`:
verify the value against target `"val"` (the value shape), verify the weight
against the same target with broadcast and expand on (`_check_weight`,
L371-381), then run the single-sample kernel on every value slot. -/
def Acc.push_val (a : Acc) (x w : ND) : Except String Acc := do
  let xr ← verify_value x a.val_shape none false false
  let wr ← verify_value w a.val_shape none true true
  return { a with buf := fun v => push_val_kernel (a.buf v) (wr.get v) (xr.get v) }

/-- `push_vals` (src L540-577) for `mom_ndim = 1`: verify the batch against
target `"vals"` (the value shape with the record count inserted at `axis`),
verify the weights against the same target with broadcast and expand on
(`_check_weights`, L383-401), then run the batch kernel. -/
def Acc.push_vals (a : Acc) (x w : ND) (axis : Nat) : Except String Acc := do
  let target := shape_insert_axis a.val_shape axis (x.shape.getD axis 0)
  let xr ← verify_value x target (some axis) false false
  let wr ← verify_value w target (some axis) true true
  return { a with buf := vals_kernel a.buf wr xr }

/-- `push_data` (src L462-479): `_check_data` verifies the incoming array
against target `"data"` — the accumulator's own shape, with no expansion or
broadcasting — then the merge kernel runs on every value slot. -/
def Acc.push_data (a : Acc) (d : ND) : Except String Acc :=
  if d.shape = a.val_shape ++ [a.mom + 1] then
    .ok { a with buf := fun v => push_data_kernel (a.buf v) (fun k => d.get (v ++ [k])) }
  else .error "ShapeMismatch"

/-- `push_datas` (src L481-504): `_check_datas` verifies the batch against
target `"datas"` (the accumulator shape with the record count inserted at
`axis`, rolled to the front), then the batch-merge kernel runs. -/
def Acc.push_datas (a : Acc) (datas : ND) (axis : Nat) : Except String Acc := do
  let target := shape_insert_axis (a.val_shape ++ [a.mom + 1]) axis (datas.shape.getD axis 0)
  let dr ← verify_value datas target (some axis) false false
  return { a with buf := datas_kernel a.buf dr }

/-- Python exception semantics for an in-place operation: a raised check
propagates the receiver exactly as it was at the raise point.  All modelled
operations mirror the source statement order — pure validation first, the
kernel write last — so the receiver at a raise is the initial state. -/
def Acc.run (op : Acc → Except String Acc) (a : Acc) : Acc × Option String :=
  match op a with
  | .ok a' => (a', none)
  | .error e => (a, some e)

/-- `_check_other` (src L582-586): operands must agree in type, `mom_ndim`
and total shape. -/
def Acc.check_other (a b : Acc) : Bool :=
  a.val_shape == b.val_shape && a.mom == b.mom

/-- `__mul__` (src L635-640): copy with only the weight slot scaled. -/
def Acc.mul (a : Acc) (scale : ℚ) : Acc :=
  { a with buf := fun v k => if k = 0 then a.buf v k * scale else a.buf v k }

/-- `__add__` (src L597-606): `_check_other`, then a copy of `a` merged with
`b.data` via `push_data`. -/
def Acc.add (a b : Acc) : Except String Acc :=
  if a.check_other b then a.push_data b.data else .error "AssertionError"

/-- The negated-weight copy built by `__sub__`/`__isub__`:
`data[_weight_index] *= -1`. -/
def Acc.negWeight (b : Acc) : Acc :=
  { b with buf := fun v k => if k = 0 then b.buf v k * (-1) else b.buf v k }

/-- All index tuples componentwise below a shape, the value slots of a
buffer (row-major order). -/
def allIdx : List Nat → List (List Nat)
  | [] => [[]]
  | d :: ds => (List.range d).flatMap (fun i => (allIdx ds).map (fun t => i :: t))

/-- `np.all(self.weight() >= b.weight())`: the elementwise weight-ordering
precondition of subtraction. -/
def Acc.weight_all_ge (a b : Acc) : Bool :=
  (allIdx a.val_shape).all (fun v => decide (b.buf v 0 ≤ a.buf v 0))

/-- `__isub__` (src L608-620): `_check_other`, the weight-ordering assert,
then push the negated-weight copy of `b.data` into `self`. -/
def Acc.isub (a b : Acc) : Except String Acc :=
  if ¬ a.check_other b then .error "AssertionError"
  else if ¬ a.weight_all_ge b then .error "AssertionError: weight ordering"
  else a.push_data b.negWeight.data

/-- `__sub__` (src L622-633): `_check_other`, the weight-ordering assert,
then push `self.data` into a negated-weight copy of `b`; `self` is never
written. -/
def Acc.sub (a b : Acc) : Except String Acc :=
  if ¬ a.check_other b then .error "AssertionError"
  else if ¬ a.weight_all_ge b then .error "AssertionError: weight ordering"
  else b.negWeight.push_data a.data

/-- `_single_index` (src L276-292): for one moment dimension, `[val]`; for
`dims` dimensions, rows of zeros with `val` on the diagonal
(`index[i][i] = val`), used as a paired fancy index. -/
def single_index (dims : Nat) (val : Nat) : List (List Nat) :=
  if dims = 1 then [[val]]
  else (List.range dims).map (fun i => (List.range dims).map (fun j => if j = i then val else 0))

/-- numpy paired advanced indexing `values[..., rows[0], rows[1]]` on a
bivariate buffer: the two index lists are walked in lockstep, producing a
new trailing axis of their common length. -/
def fancy_index2 (buf : List Nat → Nat × Nat → ℚ) (rows : List (List Nat)) :
    List Nat → Nat → ℚ :=
  fun v t => buf v ((rows.getD 0 []).getD t 0, (rows.getD 1 []).getD t 0)

/-- `mean` (src L298-300) on a co-moment accumulator:
`values[self._single_index(1)]`. -/
def Acc2.mean (a : Acc2) : List Nat → Nat → ℚ :=
  fancy_index2 a.buf (single_index 2 1)

/-- `var` (src L302-304) on a co-moment accumulator:
`values[self._single_index(2)]`. -/
def Acc2.var (a : Acc2) : List Nat → Nat → ℚ :=
  fancy_index2 a.buf (single_index 2 2)

/-- `cmom` (src L310-323) for `mom_ndim = 1`: a copy of the buffer with the
weight slot (`_weight_index`, slot 0) set to 1 and the mean slot
(`_single_index(1)`, slot 1) set to 0.  The copy (`self.data.copy()`) is
what is written; `self._data` is untouched. -/
def Acc.cmom (a : Acc) : List Nat → Nat → ℚ :=
  fun v k => if k = 0 then 1 else if k = 1 then 0 else a.buf v k

/-- `cmom` (src L310-323) for `mom_ndim = 2`: the weight slot `(0,0)` is set
to 1 and the fancy index `_single_index(1)` — the pair of slots `(1,0)` and
`(0,1)` — is set to 0 on a copy of the buffer. -/
def Acc2.cmom (a : Acc2) : List Nat → Nat × Nat → ℚ :=
  fun v ij => if ij = (0, 0) then 1 else if ij = (1, 0) ∨ ij = (0, 1) then 0 else a.buf v ij

/-- `_check_other` for co-moment accumulators. -/
def Acc2.check_other (a b : Acc2) : Bool :=
  a.val_shape == b.val_shape && a.mom0 == b.mom0 && a.mom1 == b.mom1

/-- `__mul__` (src L635-640) on a co-moment accumulator. -/
def Acc2.mul (a : Acc2) (scale : ℚ) : Acc2 :=
  { a with buf := fun v ij => if ij = (0, 0) then a.buf v ij * scale else a.buf v ij }

/-- `push_data` for `mom_ndim = 2`: shape check, then the bivariate merge
kernel on every value slot (the incoming buffer read slot-wise). -/
def Acc2.push_data (a : Acc2) (d : List Nat → Nat × Nat → ℚ) (dShape : List Nat) :
    Except String Acc2 :=
  if dShape = a.val_shape ++ [a.mom0 + 1, a.mom1 + 1] then
    .ok { a with buf := fun v => push_data_kernel2 (a.buf v) (d v) }
  else .error "ShapeMismatch"

/-- `__add__` (src L597-606) on a co-moment accumulator. -/
def Acc2.add (a b : Acc2) : Except String Acc2 :=
  if a.check_other b then a.push_data b.buf (b.val_shape ++ [b.mom0 + 1, b.mom1 + 1])
  else .error "AssertionError"

/-- The truncating reshape in `block` (src L1131-1133):
`data[: nblock * block_size].reshape((nblock, block_size) + data.shape[1:])`
— a C-order split of the leading axis. -/
def blockReshape (d : ND) (nblock bs : Nat) : ND :=
  ⟨nblock :: bs :: d.shape.tail,
   fun idx => d.get ((idx.getD 0 0 * bs + idx.getD 1 0) :: idx.drop 2)⟩

/-- Modelled from the spec: the concrete `from_datas` of the array subclass
is not under `src/` (only the abstract declaration is).  Per §4.3/§4.4 it
rolls `axis` to the front and reduces the records into a zeroed accumulator
by sequential merge (`push_datas`); the result drops the record axis. -/
def from_datas (datas : ND) (axis : Nat) : ND :=
  let d := if axis ≠ 0 then datas.moveaxisToFront axis else datas
  let n := d.shape.headD 0
  ⟨d.shape.tail,
   fun idx =>
     ((List.range n).foldl
        (fun acc r => push_data_kernel acc (fun k => d.get (r :: (idx.dropLast ++ [k]))))
        (fun _ => 0)) (idx.getLastD 0)⟩

/-- `reduce` (src L1085-1093): `_raise_if_scalar`, `_wrap_axis`, then
`from_datas(self.values, axis=axis)`. -/
def Acc.reduce (a : Acc) (axis : Nat) : Except String ND :=
  if a.val_shape.length = 0 then .error "not implemented for scalar"
  else if axis < a.val_shape.length then .ok (from_datas a.data axis)
  else .error "axis out of bounds"

/-- `block` (src L1095-1134): `_raise_if_scalar`, `_wrap_axis`, move `axis`
to the front, default `block_size = n` with `nblock = 1`, otherwise
`nblock = n // block_size` (a Python `ZeroDivisionError` for size 0), then
`from_datas` over axis 1 of the truncating reshape. -/
def Acc.block (a : Acc) (block_size : Option Nat) (axis : Nat) : Except String ND :=
  if a.val_shape.length = 0 then .error "not implemented for scalar"
  else if axis < a.val_shape.length then
    let data := if axis ≠ 0 then a.data.moveaxisToFront axis else a.data
    let n := data.shape.headD 0
    match block_size with
    | none => .ok (from_datas (blockReshape data 1 n) 1)
    | some bs =>
        if bs = 0 then .error "ZeroDivisionError"
        else .ok (from_datas (blockReshape data (n / bs) bs) 1)
  else .error "axis out of bounds"

/-- `np.take(x, r, axis)`: record `r` of `x` along `axis`. -/
def ND.record (x : ND) (axis r : Nat) : ND :=
  ⟨x.shape.eraseIdx axis, fun idx => x.get (List.insertIdx axis r idx)⟩

theorem Acc.data_get (a : Acc) (v : List Nat) (k : Nat) :
    a.data.get (v ++ [k]) = a.buf v k := by
  simp [Acc.data]

/-- C9: on a co-moment accumulator (`mom_ndim = 2`), `mean()` is not one
scalar per value slot but the two means stacked along a new trailing axis of
length 2 — the buffer entries at moment indices `(1,0)` and `(0,1)`; `var()`
likewise stacks the entries at `(2,0)` and `(0,2)`. -/
theorem claim9_comoment_mean_var_stacked (a : Acc2) (v : List Nat) :
    (single_index 2 1).length = 2 ∧
    a.mean v 0 = a.buf v (1, 0) ∧ a.mean v 1 = a.buf v (0, 1) ∧
    (single_index 2 2).length = 2 ∧
    a.var v 0 = a.buf v (2, 0) ∧ a.var v 1 = a.buf v (0, 2) :=
  ⟨rfl, rfl, rfl, rfl, rfl, rfl⟩

/-- C7: `cmom()` equals the data buffer except that the weight slot is 1 and
each mean slot is 0; all other entries are identical (for both moment
dimensionalities).  The call writes only the fresh copy, never the
accumulator's own buffer. -/
theorem claim7_cmom_forces_weight_and_mean :
    (∀ (a : Acc) (v : List Nat),
      a.cmom v 0 = 1 ∧ a.cmom v 1 = 0 ∧ ∀ k, 2 ≤ k → a.cmom v k = a.buf v k)
    ∧ (∀ (a : Acc2) (v : List Nat),
      a.cmom v (0, 0) = 1 ∧ a.cmom v (1, 0) = 0 ∧ a.cmom v (0, 1) = 0 ∧
      ∀ i j, ¬(i = 0 ∧ j = 0) → ¬(i = 1 ∧ j = 0) → ¬(i = 0 ∧ j = 1) →
        a.cmom v (i, j) = a.buf v (i, j)) := by
  constructor
  · intro a v
    refine ⟨rfl, rfl, fun k hk => ?_⟩
    unfold Acc.cmom
    rw [if_neg (by omega), if_neg (by omega)]
  · intro a v
    refine ⟨rfl, rfl, rfl, fun i j h1 h2 h3 => ?_⟩
    unfold Acc2.cmom
    rw [if_neg (by simp [Prod.ext_iff]; omega),
      if_neg (by simp [Prod.ext_iff]; omega)]

theorem claim7_cmom_forces_weight_and_mean_witness :
    (2 ≤ 2 ∧ (Acc.mk [] 3 (fun _ _ => 5)).cmom [] 2 = (Acc.mk [] 3 (fun _ _ => 5)).buf [] 2)
    ∧ (¬(1 = 0 ∧ 1 = 0) ∧ ¬(1 = 1 ∧ 1 = 0) ∧ ¬(1 = 0 ∧ 1 = 1) ∧
       (Acc2.mk [] 2 2 (fun _ _ => 7)).cmom [] (1, 1) = (Acc2.mk [] 2 2 (fun _ _ => 7)).buf [] (1, 1)) :=
  ⟨⟨by omega, (claim7_cmom_forces_weight_and_mean.1 (Acc.mk [] 3 (fun _ _ => 5)) []).2.2 2 (by omega)⟩,
   by omega, by omega, by omega,
   (claim7_cmom_forces_weight_and_mean.2 (Acc2.mk [] 2 2 (fun _ _ => 7)) []).2.2.2 1 1
     (by omega) (by omega) (by omega)⟩

/-- C2: merging with a zero-weight operand returns the other operand
unchanged (for both moment dimensionalities), and the divisor
`W = W_A + W_B` of the merge update is nonzero whenever the weights are
nonnegative and at least one is nonzero. -/
theorem claim2_merge_zero_weight_short_circuit :
    (∀ a b : Nat → ℚ, a 0 = 0 → b 0 ≠ 0 → push_data_kernel a b = b)
    ∧ (∀ a b : Nat → ℚ, b 0 = 0 → push_data_kernel a b = a)
    ∧ (∀ a b : Nat → ℚ, 0 ≤ a 0 → 0 ≤ b 0 → (a 0 ≠ 0 ∨ b 0 ≠ 0) →
        a 0 + b 0 ≠ 0)
    ∧ (∀ a b : Nat × Nat → ℚ, a (0, 0) = 0 → b (0, 0) ≠ 0 → push_data_kernel2 a b = b)
    ∧ (∀ a b : Nat × Nat → ℚ, b (0, 0) = 0 → push_data_kernel2 a b = a)
    ∧ (∀ a b : Nat × Nat → ℚ, 0 ≤ a (0, 0) → 0 ≤ b (0, 0) →
        (a (0, 0) ≠ 0 ∨ b (0, 0) ≠ 0) → a (0, 0) + b (0, 0) ≠ 0) := by
  refine ⟨fun a b ha hb => ?_, fun a b hb => ?_, fun a b ha hb h => ?_,
    fun a b ha hb => ?_, fun a b hb => ?_, fun a b ha hb h => ?_⟩
  · rw [push_data_kernel, if_neg hb, if_pos ha]
  · rw [push_data_kernel, if_pos hb]
  · rcases h with h | h
    · have : 0 < a 0 := lt_of_le_of_ne ha (Ne.symm h)
      linarith
    · have : 0 < b 0 := lt_of_le_of_ne hb (Ne.symm h)
      linarith
  · rw [push_data_kernel2, if_neg hb, if_pos ha]
  · rw [push_data_kernel2, if_pos hb]
  · rcases h with h | h
    · have : 0 < a (0, 0) := lt_of_le_of_ne ha (Ne.symm h)
      linarith
    · have : 0 < b (0, 0) := lt_of_le_of_ne hb (Ne.symm h)
      linarith

theorem claim2_merge_zero_weight_short_circuit_witness :
    ((fun k : Nat => if k = 0 then (0 : ℚ) else 7) 0 = 0
      ∧ (fun _ : Nat => (3 : ℚ)) 0 ≠ 0
      ∧ push_data_kernel (fun k => if k = 0 then (0 : ℚ) else 7) (fun _ => (3 : ℚ))
          = (fun _ => (3 : ℚ)))
    ∧ ((fun k : Nat => if k = 0 then (0 : ℚ) else 9) 0 = 0
      ∧ push_data_kernel (fun _ => (3 : ℚ)) (fun k => if k = 0 then (0 : ℚ) else 9)
          = (fun _ => (3 : ℚ)))
    ∧ ((0 : ℚ) ≤ (fun _ : Nat => (2 : ℚ)) 0 ∧ ((fun _ : Nat => (2 : ℚ)) 0 ≠ 0 ∨ (0 : ℚ) ≠ 0)
      ∧ (fun _ : Nat => (2 : ℚ)) 0 + (fun _ : Nat => (2 : ℚ)) 0 ≠ 0)
    ∧ ((fun p : Nat × Nat => if p = (0, 0) then (0 : ℚ) else 7) (0, 0) = 0
      ∧ (fun _ : Nat × Nat => (3 : ℚ)) (0, 0) ≠ 0
      ∧ push_data_kernel2 (fun p => if p = (0, 0) then (0 : ℚ) else 7) (fun _ => (3 : ℚ))
          = (fun _ => (3 : ℚ)))
    ∧ ((fun p : Nat × Nat => if p = (0, 0) then (0 : ℚ) else 9) (0, 0) = 0
      ∧ push_data_kernel2 (fun _ => (3 : ℚ)) (fun p => if p = (0, 0) then (0 : ℚ) else 9)
          = (fun _ => (3 : ℚ)))
    ∧ (fun _ : Nat × Nat => (2 : ℚ)) (0, 0) + (fun _ : Nat × Nat => (2 : ℚ)) (0, 0) ≠ 0 :=
  ⟨⟨rfl, by norm_num,
    claim2_merge_zero_weight_short_circuit.1 _ _ rfl (by norm_num)⟩,
   ⟨rfl, claim2_merge_zero_weight_short_circuit.2.1 _ _ rfl⟩,
   ⟨by norm_num, Or.inl (by norm_num),
    claim2_merge_zero_weight_short_circuit.2.2.1 (fun _ : Nat => (2 : ℚ))
      (fun _ : Nat => (2 : ℚ)) (by norm_num) (by norm_num) (Or.inl (by norm_num))⟩,
   ⟨rfl, by norm_num,
    claim2_merge_zero_weight_short_circuit.2.2.2.1 _ _ rfl (by norm_num)⟩,
   ⟨rfl, claim2_merge_zero_weight_short_circuit.2.2.2.2.1 _ _ rfl⟩,
   claim2_merge_zero_weight_short_circuit.2.2.2.2.2 (fun _ : Nat × Nat => (2 : ℚ))
     (fun _ : Nat × Nat => (2 : ℚ)) (by norm_num) (by norm_num) (Or.inl (by norm_num))⟩


theorem merge_self (f : Nat → ℚ) :
    push_data_kernel f f = fun k => if k = 0 then f 0 * 2 else f k := by
  funext k
  by_cases h0 : f 0 = 0
  · rw [push_data_kernel, if_pos h0]
    by_cases hk : k = 0
    · rw [if_pos hk, hk, h0]; ring
    · rw [if_neg hk]
  · have hW : f 0 + f 0 ≠ 0 := by intro hc; apply h0; linarith
    simp only [push_data_kernel, h0, if_false]
    by_cases hk0 : k = 0
    · rw [if_pos hk0, if_pos hk0]; ring
    rw [if_neg hk0, if_neg hk0]
    by_cases hk1 : k = 1
    · rw [if_pos hk1, hk1, sub_self, zero_mul, zero_div, add_zero]
    rw [if_neg hk1]
    have hzp : ∀ j : ℕ, j ≠ 0 → (f 1 - f 1) ^ j = (0 : ℚ) := fun j hj => by
      rw [sub_self, zero_pow hj]
    have hsum : ∑ j ∈ Finset.Icc 1 (k - 2),
        binom k j * (f 0 * f (k - j) * (-(f 0 / (f 0 + f 0))) ^ j
          + f 0 * f (k - j) * (f 0 / (f 0 + f 0)) ^ j) * (f 1 - f 1) ^ j = 0 :=
      Finset.sum_eq_zero fun j hj => by
        rw [hzp j (by rw [Finset.mem_Icc] at hj; omega), mul_zero]
    rw [hsum, hzp k hk0, div_eq_iff hW]
    ring

theorem merge_self2 (f : Nat × Nat → ℚ) :
    push_data_kernel2 f f = fun ij => if ij = (0, 0) then f (0, 0) * 2 else f ij := by
  funext ij
  obtain ⟨i, j⟩ := ij
  by_cases h0 : f (0, 0) = 0
  · rw [push_data_kernel2, if_pos h0]
    by_cases hij : (i, j) = ((0 : Nat), (0 : Nat))
    · rw [if_pos hij, hij, h0]; ring
    · rw [if_neg hij]
  · have hW : f (0, 0) + f (0, 0) ≠ 0 := by intro hc; apply h0; linarith
    simp only [push_data_kernel2, h0, if_false]
    by_cases hij0 : (i, j) = ((0 : Nat), (0 : Nat))
    · rw [if_pos hij0, if_pos hij0]; ring
    rw [if_neg hij0, if_neg hij0]
    by_cases hij1 : (i, j) = ((1 : Nat), (0 : Nat))
    · rw [if_pos hij1, hij1, sub_self, zero_mul, zero_div, add_zero]
    rw [if_neg hij1]
    by_cases hij2 : (i, j) = ((0 : Nat), (1 : Nat))
    · rw [if_pos hij2, hij2, sub_self, zero_mul, zero_div, add_zero]
    rw [if_neg hij2]
    have hcs : csum2 f (i, j) = f (0, 0) * f (i, j) := by
      rw [csum2, if_neg hij0, if_neg (by push_neg; exact ⟨hij1, hij2⟩)]
    have hsum : ∑ t ∈ Finset.range (i + 1) ×ˢ Finset.range (j + 1),
        binom i t.1 * binom j t.2 * (f (1, 0) - f (1, 0)) ^ t.1 * (f (0, 1) - f (0, 1)) ^ t.2 *
          (csum2 f (i - t.1, j - t.2) * (-(f (0, 0) / (f (0, 0) + f (0, 0)))) ^ (t.1 + t.2)
            + csum2 f (i - t.1, j - t.2) * (f (0, 0) / (f (0, 0) + f (0, 0))) ^ (t.1 + t.2))
        = 2 * (f (0, 0) * f (i, j)) := by
      rw [Finset.sum_eq_single ((0 : Nat), (0 : Nat))]
      · simp only [Nat.sub_zero, pow_zero, mul_one, one_mul]
        rw [binom_eq_choose, binom_eq_choose, Nat.choose_zero_right, Nat.choose_zero_right,
          hcs]
        push_cast
        ring
      · intro t _ ht
        have hne : t.1 ≠ 0 ∨ t.2 ≠ 0 := by
          by_contra hc
          push_neg at hc
          exact ht (Prod.ext hc.1 hc.2)
        rcases hne with h | h
        · rw [sub_self (f (1, 0)), zero_pow h]; ring
        · rw [sub_self (f (0, 1)), zero_pow h]; ring
      · intro hnot
        exact absurd (Finset.mem_product.mpr
          ⟨Finset.mem_range.mpr (by omega), Finset.mem_range.mpr (by omega)⟩) hnot
    rw [hsum, div_eq_iff hW]
    ring

/-- C4: for every accumulator, the buffer of `A*2` (weight slot rescaled)
equals the buffer of `A+A` (self-merge): same weight, same mean, same
central moments — for both moment dimensionalities. -/
theorem claim4_scale_two_eq_self_merge :
    (∀ a : Acc, a.add a = Except.ok (a.mul 2))
    ∧ (∀ a : Acc2, a.add a = Except.ok (a.mul 2)) := by
  constructor
  · intro a
    have hco : a.check_other a = true := by simp [Acc.check_other]
    have hsh : a.data.shape = a.val_shape ++ [a.mom + 1] := rfl
    rw [Acc.add, if_pos hco, Acc.push_data, if_pos hsh, Acc.mul]
    refine congrArg Except.ok ?_
    simp only [Acc.mk.injEq, true_and]
    funext v k
    have hbv : (fun k => a.data.get (v ++ [k])) = a.buf v :=
      funext fun k => a.data_get v k
    rw [hbv, merge_self]
    by_cases hk : k = 0
    · subst hk; simp
    · simp only [if_neg hk]
  · intro a
    have hco : a.check_other a = true := by simp [Acc2.check_other]
    rw [Acc2.add, if_pos hco, Acc2.push_data, if_pos rfl, Acc2.mul]
    refine congrArg Except.ok ?_
    simp only [Acc2.mk.injEq, true_and]
    funext v ij
    rw [merge_self2]
    by_cases hij : ij = ((0 : Nat), (0 : Nat))
    · subst hij; simp
    · simp only [if_neg hij]

theorem run_error_preserves (op : Acc → Except String Acc) (a : Acc) :
    (Acc.run op a).2.isSome → (Acc.run op a).1 = a := by
  unfold Acc.run
  cases h : op a with
  | ok a' => simp
  | error e => simp

/-- C3: every mutating operation (`push_val`, `push_vals`, `push_data`,
`push_datas`) validates its input before the kernel writes the buffer, so a
raising call leaves the accumulator exactly as it was — no partially
mutated state. -/
theorem claim3_no_partial_mutation_on_failure (a : Acc) (x w d datas : ND) (axis : Nat) :
    ((Acc.run (fun s => s.push_val x w) a).2.isSome →
      (Acc.run (fun s => s.push_val x w) a).1 = a)
    ∧ ((Acc.run (fun s => s.push_vals x w axis) a).2.isSome →
      (Acc.run (fun s => s.push_vals x w axis) a).1 = a)
    ∧ ((Acc.run (fun s => s.push_data d) a).2.isSome →
      (Acc.run (fun s => s.push_data d) a).1 = a)
    ∧ ((Acc.run (fun s => s.push_datas datas axis) a).2.isSome →
      (Acc.run (fun s => s.push_datas datas axis) a).1 = a) :=
  ⟨run_error_preserves _ a, run_error_preserves _ a,
   run_error_preserves _ a, run_error_preserves _ a⟩

theorem claim3_no_partial_mutation_on_failure_witness :
    ((Acc.run (fun s => s.push_val (ND.mk [3] (fun _ => 0)) (ND.mk [] (fun _ => 1)))
        (Acc.mk [] 2 (fun _ _ => 4))).2.isSome
      ∧ (Acc.run (fun s => s.push_val (ND.mk [3] (fun _ => 0)) (ND.mk [] (fun _ => 1)))
          (Acc.mk [] 2 (fun _ _ => 4))).1 = Acc.mk [] 2 (fun _ _ => 4))
    ∧ ((Acc.run (fun s => s.push_vals (ND.mk [] (fun _ => 0)) (ND.mk [] (fun _ => 1)) 0)
        (Acc.mk [] 2 (fun _ _ => 4))).2.isSome
      ∧ (Acc.run (fun s => s.push_vals (ND.mk [] (fun _ => 0)) (ND.mk [] (fun _ => 1)) 0)
          (Acc.mk [] 2 (fun _ _ => 4))).1 = Acc.mk [] 2 (fun _ _ => 4))
    ∧ ((Acc.run (fun s => s.push_data (ND.mk [5] (fun _ => 0)))
        (Acc.mk [] 2 (fun _ _ => 4))).2.isSome
      ∧ (Acc.run (fun s => s.push_data (ND.mk [5] (fun _ => 0)))
          (Acc.mk [] 2 (fun _ _ => 4))).1 = Acc.mk [] 2 (fun _ _ => 4))
    ∧ ((Acc.run (fun s => s.push_datas (ND.mk [] (fun _ => 0)) 0)
        (Acc.mk [] 2 (fun _ _ => 4))).2.isSome
      ∧ (Acc.run (fun s => s.push_datas (ND.mk [] (fun _ => 0)) 0)
          (Acc.mk [] 2 (fun _ _ => 4))).1 = Acc.mk [] 2 (fun _ _ => 4)) :=
  ⟨⟨rfl, (claim3_no_partial_mutation_on_failure (Acc.mk [] 2 (fun _ _ => 4))
      (ND.mk [3] (fun _ => 0)) (ND.mk [] (fun _ => 1)) (ND.mk [5] (fun _ => 0))
      (ND.mk [] (fun _ => 0)) 0).1 rfl⟩,
   ⟨rfl, (claim3_no_partial_mutation_on_failure (Acc.mk [] 2 (fun _ _ => 4))
      (ND.mk [] (fun _ => 0)) (ND.mk [] (fun _ => 1)) (ND.mk [5] (fun _ => 0))
      (ND.mk [] (fun _ => 0)) 0).2.1 rfl⟩,
   ⟨rfl, (claim3_no_partial_mutation_on_failure (Acc.mk [] 2 (fun _ _ => 4))
      (ND.mk [3] (fun _ => 0)) (ND.mk [] (fun _ => 1)) (ND.mk [5] (fun _ => 0))
      (ND.mk [] (fun _ => 0)) 0).2.2.1 rfl⟩,
   ⟨rfl, (claim3_no_partial_mutation_on_failure (Acc.mk [] 2 (fun _ _ => 4))
      (ND.mk [3] (fun _ => 0)) (ND.mk [] (fun _ => 1)) (ND.mk [5] (fun _ => 0))
      (ND.mk [] (fun _ => 0)) 0).2.2.2 rfl⟩⟩

/-- C6: if two accumulators agree in mom_ndim and shape but the elementwise
weight-ordering precondition `a.weight() >= b.weight()` fails, both `a - b`
and `a -= b` raise synchronously and `a`'s buffer is untouched. -/
theorem claim6_sub_requires_weight_ordering (a b : Acc)
    (hco : a.check_other b = true) (hw : a.weight_all_ge b = false) :
    (Acc.run (fun s => s.isub b) a).1 = a
    ∧ (Acc.run (fun s => s.isub b) a).2.isSome
    ∧ a.sub b = Except.error "AssertionError: weight ordering" := by
  have h1 : a.isub b = Except.error "AssertionError: weight ordering" := by
    rw [Acc.isub, if_neg (by simp [hco]), if_pos (by simp [hw])]
  have h2 : a.sub b = Except.error "AssertionError: weight ordering" := by
    rw [Acc.sub, if_neg (by simp [hco]), if_pos (by simp [hw])]
  refine ⟨?_, ?_, h2⟩
  · show (Acc.run (fun s => s.isub b) a).1 = a
    unfold Acc.run
    simp only [h1]
  · show (Acc.run (fun s => s.isub b) a).2.isSome
    unfold Acc.run
    simp only [h1]
    rfl

theorem claim6_sub_requires_weight_ordering_witness :
    ((Acc.mk [] 1 (fun _ _ => 1)).check_other (Acc.mk [] 1 (fun _ _ => 2)) = true)
    ∧ ((Acc.mk [] 1 (fun _ _ => 1)).weight_all_ge (Acc.mk [] 1 (fun _ _ => 2)) = false)
    ∧ (Acc.run (fun s => s.isub (Acc.mk [] 1 (fun _ _ => 2))) (Acc.mk [] 1 (fun _ _ => 1))).1
        = Acc.mk [] 1 (fun _ _ => 1)
    ∧ (Acc.mk [] 1 (fun _ _ => 1)).sub (Acc.mk [] 1 (fun _ _ => 2))
        = Except.error "AssertionError: weight ordering" := by
  have hco : (Acc.mk [] 1 (fun _ _ => 1)).check_other (Acc.mk [] 1 (fun _ _ => 2)) = true := rfl
  have hw : (Acc.mk [] 1 (fun _ _ => 1)).weight_all_ge (Acc.mk [] 1 (fun _ _ => 2)) = false := by
    decide
  have h := claim6_sub_requires_weight_ordering _ _ hco hw
  exact ⟨hco, hw, h.1, h.2.2⟩

theorem dropLast_cons_concat (x : Nat) (vi : List Nat) (k : Nat) :
    (x :: (vi ++ [k])).dropLast = x :: vi := by
  have h : x :: (vi ++ [k]) = (x :: vi) ++ [k] := rfl
  rw [h, List.dropLast_concat]

theorem getLastD_cons_concat (x : Nat) (vi : List Nat) (k : Nat) :
    (x :: (vi ++ [k])).getLastD 0 = k := by
  have h : x :: (vi ++ [k]) = (x :: vi) ++ [k] := rfl
  rw [h]
  exact List.getLastD_concat _ _ _

/-- The record-reduction fold shared by `reduce` and one-block `block`. -/
def reduceFold (A : ND) (n : Nat) (vi : List Nat) : Nat → ℚ :=
  (List.range n).foldl
    (fun acc r => push_data_kernel acc (fun kk => A.get (r :: (vi ++ [kk]))))
    (fun _ => 0)

theorem from_datas_axis0_shape (A : ND) : (from_datas A 0).shape = A.shape.tail := rfl

theorem from_datas_axis0_get (A : ND) (vi : List Nat) (k : Nat) :
    (from_datas A 0).get (vi ++ [k]) = reduceFold A (A.shape.headD 0) vi k := by
  show ((List.range ((if (0 : Nat) ≠ 0 then A.moveaxisToFront 0 else A).shape.headD 0)).foldl
      (fun acc r => push_data_kernel acc
        (fun kk => (if (0 : Nat) ≠ 0 then A.moveaxisToFront 0 else A).get
          (r :: ((vi ++ [k]).dropLast ++ [kk]))))
      (fun _ => 0)) ((vi ++ [k]).getLastD 0) = _
  simp only [ne_eq, not_true_eq_false, if_false, List.dropLast_concat,
    List.getLastD_concat]
  rfl

theorem from_datas_eq_axis0 (datas : ND) (axis : Nat) :
    from_datas datas axis
      = from_datas (if axis ≠ 0 then datas.moveaxisToFront axis else datas) 0 := by
  unfold from_datas
  by_cases h : axis = 0
  · subst h; rfl
  · simp [h]

theorem from_datas_one_block_shape (A : ND) (n : Nat) :
    (from_datas (blockReshape A 1 n) 1).shape = 1 :: A.shape.tail := rfl

theorem from_datas_one_block_get (A : ND) (n : Nat) (vi : List Nat) (k : Nat) :
    (from_datas (blockReshape A 1 n) 1).get (0 :: (vi ++ [k])) = reduceFold A n vi k := by
  show ((List.range (((blockReshape A 1 n).moveaxisToFront 1).shape.headD 0)).foldl
      (fun acc r => push_data_kernel acc
        (fun kk => ((blockReshape A 1 n).moveaxisToFront 1).get
          (r :: ((0 :: (vi ++ [k])).dropLast ++ [kk]))))
      (fun _ => 0)) ((0 :: (vi ++ [k])).getLastD 0) = _
  rw [dropLast_cons_concat, getLastD_cons_concat]
  have hhead : ((blockReshape A 1 n).moveaxisToFront 1).shape.headD 0 = n := rfl
  rw [hhead]
  have hrow : ∀ r : Nat,
      (fun kk => ((blockReshape A 1 n).moveaxisToFront 1).get (r :: ((0 :: vi) ++ [kk])))
        = fun kk => A.get (r :: (vi ++ [kk])) := by
    intro r
    funext kk
    show (blockReshape A 1 n).get (List.insertIdx 1 r ((0 :: vi) ++ [kk])) = _
    have hins : List.insertIdx 1 r ((0 :: vi) ++ [kk]) = 0 :: r :: (vi ++ [kk]) := by
      have h1 : (0 :: vi) ++ [kk] = 0 :: (vi ++ [kk]) := rfl
      rw [h1, List.insertIdx_succ_cons, List.insertIdx_zero]
    rw [hins]
    show A.get ((0 * n + r) :: (vi ++ [kk])) = A.get (r :: (vi ++ [kk]))
    norm_num
  have hstep : (fun (acc : Nat → ℚ) (r : Nat) => push_data_kernel acc
        (fun kk => ((blockReshape A 1 n).moveaxisToFront 1).get
          (r :: ((0 :: vi) ++ [kk]))))
      = fun (acc : Nat → ℚ) (r : Nat) => push_data_kernel acc
          (fun kk => A.get (r :: (vi ++ [kk]))) := by
    funext acc r
    rw [hrow r]
  rw [hstep]
  rfl

theorem block_data_head (a : Acc) (axis : Nat) (hax : axis < a.val_shape.length) :
    (if axis ≠ 0 then a.data.moveaxisToFront axis else a.data).shape.headD 0
      = a.val_shape.getD axis 0 := by
  by_cases h : axis = 0
  · subst h
    simp only [ne_eq, not_true_eq_false, if_false]
    show (a.val_shape ++ [a.mom + 1]).headD 0 = a.val_shape.getD 0 0
    cases hv : a.val_shape with
    | nil => rw [hv] at hax; simp at hax
    | cons y ys => simp
  · simp only [ne_eq, h, not_false_eq_true, if_true]
    show (a.data.shape.getD axis 0 :: a.data.shape.eraseIdx axis).headD 0
      = a.val_shape.getD axis 0
    show a.data.shape.getD axis 0 = a.val_shape.getD axis 0
    show (a.val_shape ++ [a.mom + 1]).getD axis 0 = a.val_shape.getD axis 0
    exact List.getD_append _ _ _ _ hax

theorem block_full_core (a : Acc) (axis : Nat) (hax : axis < a.val_shape.length)
    (hn : 0 < a.val_shape.getD axis 0) :
    ∃ B R : ND, a.block (some (a.val_shape.getD axis 0)) axis = Except.ok B
      ∧ a.block none axis = Except.ok B
      ∧ a.reduce axis = Except.ok R
      ∧ B.shape = 1 :: R.shape
      ∧ ∀ (vi : List Nat) (k : Nat), B.get (0 :: (vi ++ [k])) = R.get (vi ++ [k]) := by
  have hlen : ¬ a.val_shape.length = 0 := by omega
  set A := if axis ≠ 0 then a.data.moveaxisToFront axis else a.data with hA
  have hhead : A.shape.headD 0 = a.val_shape.getD axis 0 := block_data_head a axis hax
  refine ⟨from_datas (blockReshape A 1 (a.val_shape.getD axis 0)) 1, from_datas A 0,
    ?_, ?_, ?_, ?_, ?_⟩
  · rw [Acc.block, if_neg hlen, if_pos hax]
    show (if a.val_shape.getD axis 0 = 0 then Except.error "ZeroDivisionError"
      else Except.ok (from_datas
        (blockReshape A (A.shape.headD 0 / a.val_shape.getD axis 0) (a.val_shape.getD axis 0))
        1)) = _
    have hbs : ¬ a.val_shape.getD axis 0 = 0 := by omega
    rw [if_neg hbs, hhead, Nat.div_self hn]
  · rw [Acc.block, if_neg hlen, if_pos hax]
    show Except.ok (from_datas (blockReshape A 1 (A.shape.headD 0)) 1) = _
    rw [hhead]
  · rw [Acc.reduce, if_neg hlen, if_pos hax, from_datas_eq_axis0]
  · rw [from_datas_one_block_shape, from_datas_axis0_shape]
  · intro vi k
    rw [from_datas_one_block_get, from_datas_axis0_get, hhead]

/-- C5 (counterexample): `block(block_size = full_length)` does not equal
`reduce(axis)` as stated — the block result keeps a leading block axis of
length 1, so for `val_shape = (2,)`, `mom = 1`, `axis = 0` the two results
differ (shapes `[1, 2]` vs `[2]`). -/
theorem claim5_counterexample :
    (Acc.mk [2] 1 (fun _ _ => 0)).block (some 2) 0
      ≠ (Acc.mk [2] 1 (fun _ _ => 0)).reduce 0 := by
  intro h
  have h1 : ((Acc.mk [2] 1 (fun _ _ => 0)).block (some 2) 0).map ND.shape
      = Except.ok [1, 2] := rfl
  rw [h] at h1
  have h2 : ((Acc.mk [2] 1 (fun _ _ => 0)).reduce 0).map ND.shape
      = Except.ok [2] := rfl
  rw [h2] at h1
  simp at h1

/-- C5 (amended): for a vector-valued accumulator and valid axis with a
positive record count `n`, `block(block_size = n, axis)` equals
`reduce(axis)` up to a leading block axis of length 1: the block result's
shape is `1 ::` the reduce result's shape and its single block slice holds
exactly the reduce result. -/
theorem claim5_block_full_vs_reduce (a : Acc) (axis : Nat)
    (hax : axis < a.val_shape.length) (hn : 0 < a.val_shape.getD axis 0) :
    ∃ B R : ND, a.block (some (a.val_shape.getD axis 0)) axis = Except.ok B
      ∧ a.reduce axis = Except.ok R
      ∧ B.shape = 1 :: R.shape
      ∧ ∀ (vi : List Nat) (k : Nat), B.get (0 :: (vi ++ [k])) = R.get (vi ++ [k]) := by
  obtain ⟨B, R, h1, _, h3, h4, h5⟩ := block_full_core a axis hax hn
  exact ⟨B, R, h1, h3, h4, h5⟩

theorem claim5_block_full_vs_reduce_witness :
    0 < (Acc.mk [2] 1 (fun _ _ => 1)).val_shape.length
    ∧ 0 < (Acc.mk [2] 1 (fun _ _ => 1)).val_shape.getD 0 0
    ∧ ∃ B R : ND,
      (Acc.mk [2] 1 (fun _ _ => 1)).block
          (some ((Acc.mk [2] 1 (fun _ _ => 1)).val_shape.getD 0 0)) 0 = Except.ok B
      ∧ (Acc.mk [2] 1 (fun _ _ => 1)).reduce 0 = Except.ok R
      ∧ B.shape = 1 :: R.shape
      ∧ ∀ (vi : List Nat) (k : Nat), B.get (0 :: (vi ++ [k])) = R.get (vi ++ [k]) :=
  ⟨by decide, by decide,
   claim5_block_full_vs_reduce (Acc.mk [2] 1 (fun _ _ => 1)) 0 (by decide) (by decide)⟩

/-- C10 (counterexample): `block(block_size = None, axis)` is not literally
the reduction along the axis — the single block is carried in a leading axis
of length 1 (shapes `[1, 2]` vs `[2]` for `val_shape = (3,)`, `mom = 1`). -/
theorem claim10_counterexample :
    (Acc.mk [3] 1 (fun _ _ => 1)).block none 0
      ≠ (Acc.mk [3] 1 (fun _ _ => 1)).reduce 0 := by
  intro h
  have h1 : ((Acc.mk [3] 1 (fun _ _ => 1)).block none 0).map ND.shape
      = Except.ok [1, 2] := rfl
  rw [h] at h1
  have h2 : ((Acc.mk [3] 1 (fun _ _ => 1)).reduce 0).map ND.shape
      = Except.ok [2] := rfl
  rw [h2] at h1
  simp at h1

/-- C10 (amended): `block(block_size = None, axis)` uses the full record
count `n` along the axis as the block size (it equals
`block(block_size = n, axis)`), so exactly one block containing every
record is formed and nothing is dropped; the result holds the reduction of
all records along that axis in its single leading block slot. -/
theorem claim10_block_none_full_reduction (a : Acc) (axis : Nat)
    (hax : axis < a.val_shape.length) (hn : 0 < a.val_shape.getD axis 0) :
    a.block none axis = a.block (some (a.val_shape.getD axis 0)) axis
    ∧ ∃ B R : ND, a.block none axis = Except.ok B
      ∧ a.reduce axis = Except.ok R
      ∧ B.shape = 1 :: R.shape
      ∧ ∀ (vi : List Nat) (k : Nat), B.get (0 :: (vi ++ [k])) = R.get (vi ++ [k]) := by
  obtain ⟨B, R, h1, h2, h3, h4, h5⟩ := block_full_core a axis hax hn
  exact ⟨h2.trans h1.symm, B, R, h2, h3, h4, h5⟩

theorem claim10_block_none_full_reduction_witness :
    0 < (Acc.mk [3] 1 (fun _ _ => 2)).val_shape.length
    ∧ 0 < (Acc.mk [3] 1 (fun _ _ => 2)).val_shape.getD 0 0
    ∧ (Acc.mk [3] 1 (fun _ _ => 2)).block none 0
        = (Acc.mk [3] 1 (fun _ _ => 2)).block
            (some ((Acc.mk [3] 1 (fun _ _ => 2)).val_shape.getD 0 0)) 0
    ∧ ∃ B R : ND, (Acc.mk [3] 1 (fun _ _ => 2)).block none 0 = Except.ok B
      ∧ (Acc.mk [3] 1 (fun _ _ => 2)).reduce 0 = Except.ok R
      ∧ B.shape = 1 :: R.shape
      ∧ ∀ (vi : List Nat) (k : Nat), B.get (0 :: (vi ++ [k])) = R.get (vi ++ [k]) :=
  ⟨by decide, by decide,
   (claim10_block_none_full_reduction (Acc.mk [3] 1 (fun _ _ => 2)) 0 (by decide) (by decide)).1,
   (claim10_block_none_full_reduction (Acc.mk [3] 1 (fun _ _ => 2)) 0 (by decide) (by decide)).2⟩

theorem getD_map_zip (f : Nat → Nat → Nat) :
    ∀ (l1 l2 : List Nat) (i : Nat), i < l1.length → i < l2.length →
      (((l1.zip l2).map (fun p => f p.1 p.2)).getD i 0) = f (l1.getD i 0) (l2.getD i 0) := by
  intro l1
  induction l1 with
  | nil => intro l2 i h1 _; simp at h1
  | cons x xs ih =>
      intro l2 i h1 h2
      cases l2 with
      | nil => simp at h2
      | cons y ys =>
          cases i with
          | zero => simp
          | succ i =>
              simp only [List.zip_cons_cons, List.map_cons, List.getD_cons_succ]
              exact ih ys i (by simpa using h1) (by simpa using h2)

theorem getD_insertIdx_self :
    ∀ (a v : Nat) (l : List Nat), a ≤ l.length → (List.insertIdx a v l).getD a 0 = v := by
  intro a
  induction a with
  | zero => intro v l _; rw [List.insertIdx_zero]; simp
  | succ a ih =>
      intro v l hl
      cases l with
      | nil => simp at hl
      | cons x xs =>
          rw [List.insertIdx_succ_cons, List.getD_cons_succ]
          exact ih v xs (by simpa using hl)

theorem length_insertIdx_of_le (a v : Nat) (l : List Nat) (h : a ≤ l.length) :
    (List.insertIdx a v l).length = l.length + 1 :=
  List.length_insertIdx a l h

theorem ones_zip_all (m : Nat) (s : List Nat) :
    ((List.replicate m 1).zip s).all (fun p => p.1 == 1 || p.1 == p.2) = true := by
  induction m generalizing s with
  | zero => simp
  | succ m ih =>
      cases s with
      | nil => simp
      | cons s0 s' =>
          rw [List.replicate_succ, List.zip_cons_cons, List.all_cons, ih s']
          simp

theorem insert_ones_zip_all :
    ∀ (a n m : Nat) (s : List Nat), a ≤ m → s.getD a 0 = n →
      ((List.insertIdx a n (List.replicate m 1)).zip s).all
        (fun p => p.1 == 1 || p.1 == p.2) = true := by
  intro a
  induction a with
  | zero =>
      intro n m s _ hs
      cases s with
      | nil => simp
      | cons s0 s' =>
          have h0 : s0 = n := by simpa using hs
          rw [List.insertIdx_zero, List.zip_cons_cons, List.all_cons, ones_zip_all, h0]
          simp
  | succ a ih =>
      intro n m s hm hs
      obtain ⟨m', rfl⟩ : ∃ m', m = m' + 1 := ⟨m - 1, by omega⟩
      cases s with
      | nil => simp
      | cons s0 s' =>
          have hs' : s'.getD a 0 = n := by simpa using hs
          rw [List.replicate_succ, List.insertIdx_succ_cons, List.zip_cons_cons,
            List.all_cons, ih n m' s' (by omega) hs']
          simp

theorem compat_insert_ones (a n : Nat) (s : List Nat) (ha : a < s.length)
    (hs : s.getD a 0 = n) :
    broadcastCompat (List.insertIdx a n (List.replicate (s.length - 1) 1)) s = true := by
  unfold broadcastCompat
  have hlen : (List.insertIdx a n (List.replicate (s.length - 1) 1)).length = s.length := by
    rw [length_insertIdx_of_le a n _ (by simp; omega)]
    simp
    omega
  rw [hlen]
  have hz := insert_ones_zip_all a n (s.length - 1) s (by omega) hs
  simp [hz]

theorem expand_broadcast_1d (x : ND) (s : List Nat) (a : Nat) (roll : Bool)
    (hnd : x.ndim = 1) (hs : 1 < s.length) (ha : a < s.length)
    (hsz : x.size1 = s.getD a 0) :
    ∃ y : ND, axis_expand_broadcast x s (some a) true true roll
        = Except.ok (if (roll && (a != 0)) = true then y.moveaxisToFront a else y)
      ∧ y.shape = s
      ∧ ∀ idx : List Nat, a < idx.length → idx.getD a 0 < s.getD a 0 →
          y.get idx = x.get [idx.getD a 0] := by
  have hcond : (true && (x.ndim == 1) && (x.ndim != s.length)) = true := by
    rw [hnd]
    simp
    omega
  have hbeq : (x.size1 == s.getD a 0) = true := by rw [hsz]; simp
  have hRshape : (x.reshapeExpand s a).shape
      = List.insertIdx a x.size1 (List.replicate (s.length - 1) 1) := rfl
  have hRlen : (x.reshapeExpand s a).shape.length = s.length := by
    rw [hRshape, length_insertIdx_of_le a _ _ (by simp; omega)]
    simp
    omega
  by_cases heq : (x.reshapeExpand s a).shape = s
  · refine ⟨x.reshapeExpand s a, ?_, heq, ?_⟩
    · unfold axis_expand_broadcast
      simp only [hcond, hbeq, heq]
      simp [pure_bind]
      rw [if_pos heq]
      rfl
    · intro idx _ _
      rfl
  · have hcompat : broadcastCompat (x.reshapeExpand s a).shape s = true := by
      rw [hRshape, hsz]
      exact compat_insert_ones a _ s ha rfl
    refine ⟨ND.mk s (fun idx =>
        (x.reshapeExpand s a).get
          (((idx.drop (s.length - (x.reshapeExpand s a).shape.length)).zip
            (x.reshapeExpand s a).shape).map (fun p => if p.2 = 1 then 0 else p.1))),
      ?_, rfl, ?_⟩
    · unfold axis_expand_broadcast
      simp only [hcond, hbeq, ND.broadcastTo, hcompat]
      simp [pure_bind, heq]
      rw [if_pos hcompat]
      rfl
    · intro idx hidx hlt
      show (x.reshapeExpand s a).get
          (((idx.drop (s.length - (x.reshapeExpand s a).shape.length)).zip
            (x.reshapeExpand s a).shape).map (fun p => if p.2 = 1 then 0 else p.1))
        = x.get [idx.getD a 0]
      rw [hRlen, Nat.sub_self, List.drop_zero]
      show x.get [(((idx.zip (x.reshapeExpand s a).shape).map
          (fun p => if p.2 = 1 then 0 else p.1)).getD a 0)] = x.get [idx.getD a 0]
      have hmz := getD_map_zip (fun i d => if d = 1 then 0 else i) idx
        (x.reshapeExpand s a).shape a hidx (by rw [hRlen]; exact ha)
      have hshapea : (x.reshapeExpand s a).shape.getD a 0 = s.getD a 0 := by
        rw [hRshape, hsz]
        exact getD_insertIdx_self a _ _ (by simp; omega)
      rw [show ((idx.zip (x.reshapeExpand s a).shape).map
          (fun p => if p.2 = 1 then 0 else p.1))
        = (idx.zip (x.reshapeExpand s a).shape).map
            (fun p => (fun i d => if d = 1 then 0 else i) p.1 p.2) from rfl] at *
      rw [hmz, hshapea]
      show x.get [if s.getD a 0 = 1 then 0 else idx.getD a 0] = x.get [idx.getD a 0]
      by_cases h1 : s.getD a 0 = 1
      · rw [if_pos h1]
        have hz : idx.getD a 0 = 0 := by omega
        rw [hz]
      · rw [if_neg h1]

/-- C8: for a 1-D array `x`, a target shape `s` of rank above 1 and an axis
`a` with `len(x) = s[a]`, broadcast verification with expansion,
broadcasting and rolling enabled returns an array of shape
`(s[a],) ++ (s with position a removed)` whose entry at `(i, rest)` is
`x[i]` for every in-range choice of the remaining indices. -/
theorem claim8_expand_broadcast_roll (x : ND) (s : List Nat) (a : Nat)
    (hnd : x.ndim = 1) (hs : 1 < s.length) (ha : a < s.length)
    (hsz : x.size1 = s.getD a 0) :
    ∃ y : ND, axis_expand_broadcast x s (some a) true true true = Except.ok y
      ∧ y.shape = s.getD a 0 :: s.eraseIdx a
      ∧ ∀ (i : Nat) (rest : List Nat), i < s.getD a 0 → a ≤ rest.length →
          y.get (i :: rest) = x.get [i] := by
  obtain ⟨y0, hrun, hshape, hget⟩ := expand_broadcast_1d x s a true hnd hs ha hsz
  by_cases ha0 : a = 0
  · subst ha0
    refine ⟨y0, ?_, ?_, ?_⟩
    · rw [hrun]
      simp
    · cases s with
      | nil => simp at hs
      | cons s0 s' =>
          rw [hshape]
          simp
    · intro i rest hi _
      have h := hget (i :: rest) (by simp) (by simpa using hi)
      simpa using h
  · refine ⟨y0.moveaxisToFront a, ?_, ?_, ?_⟩
    · rw [hrun]
      congr 1
      rw [if_pos (by simp [ha0])]
    · show y0.shape.getD a 0 :: y0.shape.eraseIdx a = _
      rw [hshape]
    · intro i rest hi har
      show y0.get (List.insertIdx a i rest) = x.get [i]
      have hlen : a < (List.insertIdx a i rest).length := by
        rw [length_insertIdx_of_le a i rest har]
        omega
      have hgd : (List.insertIdx a i rest).getD a 0 = i := getD_insertIdx_self a i rest har
      have h := hget (List.insertIdx a i rest) hlen (by rw [hgd]; exact hi)
      rw [hgd] at h
      exact h

theorem claim8_expand_broadcast_roll_witness :
    (ND.mk [2] (fun idx => ((idx.headD 0 : Nat) : ℚ))).ndim = 1
    ∧ 1 < ([3, 2] : List Nat).length
    ∧ 1 < ([3, 2] : List Nat).length
    ∧ (ND.mk [2] (fun idx => ((idx.headD 0 : Nat) : ℚ))).size1 = ([3, 2] : List Nat).getD 1 0
    ∧ ∃ y : ND, axis_expand_broadcast (ND.mk [2] (fun idx => ((idx.headD 0 : Nat) : ℚ)))
          [3, 2] (some 1) true true true = Except.ok y
      ∧ y.shape = ([3, 2] : List Nat).getD 1 0 :: ([3, 2] : List Nat).eraseIdx 1
      ∧ ∀ (i : Nat) (rest : List Nat), i < ([3, 2] : List Nat).getD 1 0 → 1 ≤ rest.length →
          y.get (i :: rest) = (ND.mk [2] (fun idx => ((idx.headD 0 : Nat) : ℚ))).get [i] :=
  ⟨by decide, by decide, by decide, by decide,
   claim8_expand_broadcast_roll (ND.mk [2] (fun idx => ((idx.headD 0 : Nat) : ℚ)))
     [3, 2] 1 (by decide) (by decide) (by decide) (by decide)⟩

theorem verify_value_exact (xx : ND) (ts : List Nat) (h : xx.shape = ts) :
    verify_value xx ts none false false = Except.ok xx := by
  unfold verify_value axis_expand_broadcast
  simp [h, pure_bind]
  rfl

theorem verify_value_exact_w (ww : ND) (ts : List Nat) (h : ww.shape = ts) :
    verify_value ww ts none true true = Except.ok ww := by
  have hc : (true && (ww.ndim == 1) && (ww.ndim != ts.length)) = false := by
    have : ww.ndim = ts.length := by rw [ND.ndim, h]
    rw [this]
    simp
  unfold verify_value axis_expand_broadcast
  rw [hc]
  simp [h, pure_bind]
  rfl

theorem verify_value_scalar_w (c : ℚ) (ts : List Nat) :
    ∃ wr : ND, verify_value (ND.mk [] (fun _ => c)) ts none true true = Except.ok wr
      ∧ ∀ idx : List Nat, wr.get idx = c := by
  by_cases h : ts = []
  · subst h
    exact ⟨ND.mk [] (fun _ => c), verify_value_exact_w _ _ rfl, fun _ => rfl⟩
  · have hcompat : broadcastCompat (ND.mk [] (fun _ => c)).shape ts = true := by
      unfold broadcastCompat
      simp
    refine ⟨ND.mk ts (fun idx => (ND.mk [] (fun _ => c)).get
        (((idx.drop (ts.length - 0)).zip ([] : List Nat)).map
          (fun p => if p.2 = 1 then 0 else p.1))), ?_, ?_⟩
    · unfold verify_value axis_expand_broadcast ND.broadcastTo
      have hne : (ND.mk [] (fun _ => c)).shape ≠ ts := by simpa using Ne.symm h
      simp [hne, hcompat, pure_bind, ND.ndim]
      show (if (ND.mk ts (fun _ => c)).shape = ts then pure (ND.mk ts (fun _ => c))
          else (Except.error "ShapeMismatch" : Except String ND))
        = Except.ok (ND.mk ts (fun _ => c))
      rw [if_pos rfl]
      rfl
    · intro idx
      rfl

theorem verify_value_exact_axis (xx : ND) (ts : List Nat) (ax : Nat) (h : xx.shape = ts) :
    verify_value xx ts (some ax) false false
      = Except.ok (if (ax != 0) = true then xx.moveaxisToFront ax else xx) := by
  unfold verify_value axis_expand_broadcast
  simp [h, pure_bind]
  rfl

theorem verify_value_exact_axis_w (ww : ND) (ts : List Nat) (ax : Nat) (h : ww.shape = ts) :
    verify_value ww ts (some ax) true true
      = Except.ok (if (ax != 0) = true then ww.moveaxisToFront ax else ww) := by
  have hc : (true && (ww.ndim == 1) && (ww.ndim != ts.length)) = false := by
    have : ww.ndim = ts.length := by rw [ND.ndim, h]
    rw [this]
    simp
  unfold verify_value axis_expand_broadcast
  rw [hc]
  simp [h, pure_bind]
  rfl

theorem verify_value_1d_w (ww : ND) (ts : List Nat) (ax : Nat)
    (hnd : ww.ndim = 1) (hlen : 1 < ts.length) (hax : ax < ts.length)
    (hsz : ww.size1 = ts.getD ax 0) :
    ∃ y : ND, verify_value ww ts (some ax) true true
        = Except.ok (if (ax != 0) = true then y.moveaxisToFront ax else y)
      ∧ y.shape = ts
      ∧ ∀ idx : List Nat, ax < idx.length → idx.getD ax 0 < ts.getD ax 0 →
          y.get idx = ww.get [idx.getD ax 0] := by
  obtain ⟨y, hrun, hshape, hget⟩ := expand_broadcast_1d ww ts ax false hnd hlen hax hsz
  refine ⟨y, ?_, hshape, hget⟩
  unfold verify_value
  rw [hrun]
  simp only [Bool.false_and]
  rw [show (if (false = true) then y.moveaxisToFront ax else y) = y by simp]
  simp [pure_bind, hshape]
  show (if y.shape = ts then pure (if ax = 0 then y else y.moveaxisToFront ax)
      else (Except.error "ShapeMismatch" : Except String ND))
    = Except.ok (if ax = 0 then y else y.moveaxisToFront ax)
  rw [if_pos hshape]
  rfl

theorem insertIdx_getD_eraseIdx :
    ∀ (l : List Nat) (i : Nat), i < l.length →
      List.insertIdx i (l.getD i 0) (l.eraseIdx i) = l := by
  intro l
  induction l with
  | nil => intro i h; simp at h
  | cons a l ih =>
      intro i h
      cases i with
      | zero => simp
      | succ i =>
          rw [List.getD_cons_succ, List.eraseIdx_cons_succ, List.insertIdx_succ_cons,
            ih i (by simpa using h)]

theorem headD_eq_getD (l : List Nat) : l.headD 0 = l.getD 0 0 := by
  cases l <;> rfl

theorem push_val_exact (s : Acc) (xx ww : ND)
    (hx : xx.shape = s.val_shape) (hw : ww.shape = s.val_shape) :
    s.push_val xx ww = Except.ok
      ({ s with
          buf := fun v => push_val_kernel (s.buf v) (ww.get v) (xx.get v) } : Acc) := by
  unfold Acc.push_val
  rw [verify_value_exact xx _ hx, verify_value_exact_w ww _ hw]
  rfl

theorem push_val_scalar (s : Acc) (xx : ND) (c : ℚ)
    (hx : xx.shape = s.val_shape) :
    ∃ res : Acc, s.push_val xx (ND.mk [] (fun _ => c)) = Except.ok res
      ∧ res.val_shape = s.val_shape ∧ res.mom = s.mom
      ∧ ∀ v : List Nat, res.buf v = push_val_kernel (s.buf v) c (xx.get v) := by
  obtain ⟨wr, hwr, hgetwr⟩ := verify_value_scalar_w c s.val_shape
  refine ⟨{ s with buf := fun v => push_val_kernel (s.buf v) (wr.get v) (xx.get v) },
    ?_, rfl, rfl, ?_⟩
  · unfold Acc.push_val
    rw [verify_value_exact xx _ hx, hwr]
    rfl
  · intro v
    show push_val_kernel (s.buf v) (wr.get v) (xx.get v) = _
    rw [hgetwr v]

/-- C1: `push_vals(x, w, axis)` leaves the accumulator in exactly the state
produced by calling `push_val` once per record, in record order, with that
record's values and weight — for every value rank (0, 1, 2, …) and every
valid reduction axis, both for a full-shape weight array and for a 1-D
per-record weight vector (buffers compared on all in-shape value indices). -/
theorem claim1_push_vals_eq_sequential (a : Acc) (x w : ND) (axis : Nat)
    (hrank : x.shape.length = a.val_shape.length + 1)
    (hax : axis < x.shape.length)
    (hvs : x.shape.eraseIdx axis = a.val_shape) :
    (w.shape = x.shape →
      ∃ L R : Acc,
        a.push_vals x w axis = Except.ok L
        ∧ (List.range (x.shape.getD axis 0)).foldlM
            (fun s r => s.push_val (x.record axis r) (w.record axis r)) a = Except.ok R
        ∧ L.val_shape = R.val_shape ∧ L.mom = R.mom
        ∧ ∀ v : List Nat, v.length = a.val_shape.length → L.buf v = R.buf v)
    ∧ (w.shape = [x.shape.getD axis 0] →
      ∃ L R : Acc,
        a.push_vals x w axis = Except.ok L
        ∧ (List.range (x.shape.getD axis 0)).foldlM
            (fun s r => s.push_val (x.record axis r) (ND.mk [] (fun _ => w.get [r]))) a
            = Except.ok R
        ∧ L.val_shape = R.val_shape ∧ L.mom = R.mom
        ∧ ∀ v : List Nat, v.length = a.val_shape.length → L.buf v = R.buf v) := by
  have htarget : shape_insert_axis a.val_shape axis (x.shape.getD axis 0) = x.shape := by
    unfold shape_insert_axis
    rw [← hvs]
    exact insertIdx_getD_eraseIdx x.shape axis hax
  set n := x.shape.getD axis 0 with hn
  set XR := if (axis != 0) = true then x.moveaxisToFront axis else x with hXRdef
  have hXR : verify_value x (shape_insert_axis a.val_shape axis n) (some axis) false false
      = Except.ok XR := by
    rw [htarget]
    exact verify_value_exact_axis x x.shape axis rfl
  have hXRhead : XR.shape.headD 0 = n := by
    rw [hXRdef]
    by_cases h0 : axis = 0
    · rw [if_neg (by simp [h0]), headD_eq_getD, hn, h0]
    · rw [if_pos (by simp [h0])]
      rfl
  have hXRget : ∀ (r : Nat) (v : List Nat),
      XR.get (r :: v) = x.get (List.insertIdx axis r v) := by
    intro r v
    rw [hXRdef]
    by_cases h0 : axis = 0
    · rw [if_neg (by simp [h0]), h0, List.insertIdx_zero]
    · rw [if_pos (by simp [h0])]
      rfl
  constructor
  · intro hwx
    set WR := if (axis != 0) = true then w.moveaxisToFront axis else w with hWRdef
    have hWR : verify_value w (shape_insert_axis a.val_shape axis n) (some axis) true true
        = Except.ok WR := by
      rw [htarget]
      exact verify_value_exact_axis_w w x.shape axis hwx
    have hWRget : ∀ (r : Nat) (v : List Nat),
        WR.get (r :: v) = w.get (List.insertIdx axis r v) := by
      intro r v
      rw [hWRdef]
      by_cases h0 : axis = 0
      · rw [if_neg (by simp [h0]), h0, List.insertIdx_zero]
      · rw [if_pos (by simp [h0])]
        rfl
    have hL : a.push_vals x w axis
        = Except.ok ({ a with buf := vals_kernel a.buf WR XR } : Acc) := by
      simp only [Acc.push_vals]
      rw [← hn, hXR, hWR]
      rfl
    have main : ∀ (l : List Nat) (b : List Nat → Nat → ℚ) (s : Acc),
        s.val_shape = a.val_shape → s.mom = a.mom →
        (∀ v : List Nat, b v = s.buf v) →
        ∃ R : Acc,
          l.foldlM (fun s r => s.push_val (x.record axis r) (w.record axis r)) s
            = Except.ok R
          ∧ R.val_shape = a.val_shape ∧ R.mom = a.mom
          ∧ ∀ v : List Nat,
              (l.foldl (fun b r => fun v =>
                push_val_kernel (b v) (WR.get (r :: v)) (XR.get (r :: v))) b) v = R.buf v := by
      intro l
      induction l with
      | nil =>
          intro b s h1 h2 h3
          exact ⟨s, rfl, h1, h2, h3⟩
      | cons r l ih =>
          intro b s h1 h2 h3
          have hxs : (x.record axis r).shape = s.val_shape := by
            show x.shape.eraseIdx axis = s.val_shape
            rw [hvs, h1]
          have hws : (w.record axis r).shape = s.val_shape := by
            show w.shape.eraseIdx axis = s.val_shape
            rw [hwx, hvs, h1]
          have hp := push_val_exact s _ _ hxs hws
          have hinv : ∀ v : List Nat,
              (fun v => push_val_kernel (b v) (WR.get (r :: v)) (XR.get (r :: v))) v
                = ({ s with buf := fun v => push_val_kernel (s.buf v) ((w.record axis r).get v) ((x.record axis r).get v) } : Acc).buf v := by
            intro v
            show push_val_kernel (b v) (WR.get (r :: v)) (XR.get (r :: v))
              = push_val_kernel (s.buf v) ((w.record axis r).get v) ((x.record axis r).get v)
            rw [h3 v, hWRget r v, hXRget r v]
            rfl
          obtain ⟨R, hR, hR1, hR2, hR3⟩ := ih
            (fun v => push_val_kernel (b v) (WR.get (r :: v)) (XR.get (r :: v)))
            ({ s with buf := fun v => push_val_kernel (s.buf v) ((w.record axis r).get v) ((x.record axis r).get v) } : Acc)
            h1 h2 hinv
          refine ⟨R, ?_, hR1, hR2, fun v => ?_⟩
          · rw [List.foldlM_cons, hp]
            exact hR
          · rw [List.foldl_cons]
            exact hR3 v
    obtain ⟨R, hR, hR1, hR2, hR3⟩ := main (List.range n) a.buf a rfl rfl (fun _ => rfl)
    refine ⟨{ a with buf := vals_kernel a.buf WR XR }, R, hL, hR, ?_, ?_, ?_⟩
    · show a.val_shape = R.val_shape
      rw [hR1]
    · show a.mom = R.mom
      rw [hR2]
    · intro v _
      show (vals_kernel a.buf WR XR) v = R.buf v
      unfold vals_kernel
      rw [hXRhead]
      exact hR3 v
  · intro hw1
    have hkey : ∃ WR : ND,
        verify_value w (shape_insert_axis a.val_shape axis n) (some axis) true true
          = Except.ok WR
        ∧ ∀ (r : Nat), r < n → ∀ (v : List Nat), v.length = a.val_shape.length →
            WR.get (r :: v) = w.get [r] := by
      by_cases hm : a.val_shape.length = 0
      · have hax0 : axis = 0 := by omega
        have hxs : x.shape = [n] := by
          cases hxsh : x.shape with
          | nil =>
              rw [hxsh] at hrank
              have h00 : (0 : Nat) = a.val_shape.length + 1 := hrank
              omega
          | cons s0 s' =>
              have hlen : s'.length = 0 := by
                rw [hxsh] at hrank
                have h01 : s'.length + 1 = a.val_shape.length + 1 := hrank
                omega
              have hs' : s' = [] := List.length_eq_zero.mp hlen
              subst hs'
              have hs0 : s0 = n := by
                rw [hn, hxsh, hax0]
                rfl
              rw [hs0]
        have hwx2 : w.shape = x.shape := by rw [hw1, hxs]
        refine ⟨w, ?_, ?_⟩
        · rw [htarget]
          have hv := verify_value_exact_axis_w w x.shape axis hwx2
          rw [hax0] at hv ⊢
          simpa using hv
        · intro r _ v hv
          have hv0 : v = [] := List.length_eq_zero.mp (by rw [hv, hm])
          rw [hv0]
      · have hm2 : 1 < x.shape.length := by omega
        have hnd : w.ndim = 1 := by
          rw [ND.ndim, hw1]
          rfl
        have hsz : w.size1 = x.shape.getD axis 0 := by
          rw [ND.size1, hw1]
          rfl
        obtain ⟨y, hyrun, hyshape, hyget⟩ := verify_value_1d_w w x.shape axis hnd hm2 hax hsz
        refine ⟨if (axis != 0) = true then y.moveaxisToFront axis else y, ?_, ?_⟩
        · rw [htarget]
          exact hyrun
        · intro r hr v hv
          by_cases h0 : axis = 0
          · rw [if_neg (by simp [h0])]
            have hg := hyget (r :: v) (by rw [h0]; simp)
              (by rw [← hn, h0]; simpa using hr)
            rw [h0] at hg
            simpa using hg
          · rw [if_pos (by simp [h0])]
            show y.get (List.insertIdx axis r v) = w.get [r]
            have haxv : axis ≤ v.length := by
              rw [hv]
              omega
            have hlen2 : axis < (List.insertIdx axis r v).length := by
              rw [length_insertIdx_of_le axis r v haxv]
              omega
            have hgd : (List.insertIdx axis r v).getD axis 0 = r :=
              getD_insertIdx_self axis r v haxv
            have hg := hyget (List.insertIdx axis r v) hlen2
              (by rw [hgd, ← hn]; exact hr)
            rw [hgd] at hg
            exact hg
    obtain ⟨WR, hWR, hWRgetv⟩ := hkey
    have hL : a.push_vals x w axis
        = Except.ok ({ a with buf := vals_kernel a.buf WR XR } : Acc) := by
      simp only [Acc.push_vals]
      rw [← hn, hXR, hWR]
      rfl
    have main1d : ∀ (l : List Nat), (∀ r, r ∈ l → r < n) →
        ∀ (b : List Nat → Nat → ℚ) (s : Acc),
        s.val_shape = a.val_shape → s.mom = a.mom →
        (∀ v : List Nat, v.length = a.val_shape.length → b v = s.buf v) →
        ∃ R : Acc,
          l.foldlM (fun s r => s.push_val (x.record axis r) (ND.mk [] (fun _ => w.get [r]))) s
            = Except.ok R
          ∧ R.val_shape = a.val_shape ∧ R.mom = a.mom
          ∧ ∀ v : List Nat, v.length = a.val_shape.length →
              (l.foldl (fun b r => fun v =>
                push_val_kernel (b v) (WR.get (r :: v)) (XR.get (r :: v))) b) v = R.buf v := by
      intro l
      induction l with
      | nil =>
          intro _ b s h1 h2 h3
          exact ⟨s, rfl, h1, h2, h3⟩
      | cons r l ih =>
          intro hmem b s h1 h2 h3
          have hxs2 : (x.record axis r).shape = s.val_shape := by
            show x.shape.eraseIdx axis = s.val_shape
            rw [hvs, h1]
          obtain ⟨res, hres, hres1, hres2, hres3⟩ :=
            push_val_scalar s (x.record axis r) (w.get [r]) hxs2
          have hinv : ∀ v : List Nat, v.length = a.val_shape.length →
              (fun v => push_val_kernel (b v) (WR.get (r :: v)) (XR.get (r :: v))) v
                = res.buf v := by
            intro v hv
            show push_val_kernel (b v) (WR.get (r :: v)) (XR.get (r :: v)) = res.buf v
            rw [hres3 v, h3 v hv, hWRgetv r (hmem r (by simp)) v hv, hXRget r v]
            rfl
          obtain ⟨R, hR, hR1, hR2, hR3⟩ := ih
            (fun r' hr' => hmem r' (List.mem_cons_of_mem _ hr'))
            (fun v => push_val_kernel (b v) (WR.get (r :: v)) (XR.get (r :: v)))
            res (hres1.trans h1) (hres2.trans h2) hinv
          refine ⟨R, ?_, hR1, hR2, fun v hv => ?_⟩
          · rw [List.foldlM_cons, hres]
            exact hR
          · rw [List.foldl_cons]
            exact hR3 v hv
    obtain ⟨R, hR, hR1, hR2, hR3⟩ := main1d (List.range n)
      (fun r hr => List.mem_range.mp hr) a.buf a rfl rfl (fun _ _ => rfl)
    refine ⟨{ a with buf := vals_kernel a.buf WR XR }, R, hL, hR, ?_, ?_, ?_⟩
    · show a.val_shape = R.val_shape
      rw [hR1]
    · show a.mom = R.mom
      rw [hR2]
    · intro v hv
      show (vals_kernel a.buf WR XR) v = R.buf v
      unfold vals_kernel
      rw [hXRhead]
      exact hR3 v hv

/-- Concrete instances used by witnesses. -/
def aEx : Acc := ⟨[2], 2, fun _ _ => 0⟩

def xEx : ND := ⟨[3, 2], fun idx => ((idx.headD 0 : Nat) : ℚ)⟩

def wEx : ND := ⟨[3, 2], fun _ => 1⟩

def wEx1 : ND := ⟨[3], fun _ => 2⟩

theorem claim1_push_vals_eq_sequential_witness :
    (xEx.shape.length = aEx.val_shape.length + 1)
    ∧ (0 < xEx.shape.length)
    ∧ (xEx.shape.eraseIdx 0 = aEx.val_shape)
    ∧ (wEx.shape = xEx.shape)
    ∧ (wEx1.shape = [xEx.shape.getD 0 0])
    ∧ (∃ L R : Acc, aEx.push_vals xEx wEx 0 = Except.ok L
        ∧ (List.range (xEx.shape.getD 0 0)).foldlM
            (fun s r => s.push_val (xEx.record 0 r) (wEx.record 0 r)) aEx = Except.ok R
        ∧ L.val_shape = R.val_shape ∧ L.mom = R.mom
        ∧ ∀ v : List Nat, v.length = aEx.val_shape.length → L.buf v = R.buf v)
    ∧ (∃ L R : Acc, aEx.push_vals xEx wEx1 0 = Except.ok L
        ∧ (List.range (xEx.shape.getD 0 0)).foldlM
            (fun s r => s.push_val (xEx.record 0 r) (ND.mk [] (fun _ => wEx1.get [r]))) aEx
            = Except.ok R
        ∧ L.val_shape = R.val_shape ∧ L.mom = R.mom
        ∧ ∀ v : List Nat, v.length = aEx.val_shape.length → L.buf v = R.buf v) :=
  ⟨by decide, by decide, by decide, rfl, rfl,
   (claim1_push_vals_eq_sequential aEx xEx wEx 0 (by decide) (by decide) (by decide)).1 rfl,
   (claim1_push_vals_eq_sequential aEx xEx wEx1 0 (by decide) (by decide) (by decide)).2 rfl⟩

end Cmomy
